import Mathlib

set_option linter.unusedVariables false

/-!
Shallow embedding of the kube-mutating-webhook admission controller
(`webhook.go` together with the `main.go` entry point of this repository).

Modelling conventions:
* Go strings are Lean `String` values (all data handled by this program is
  ASCII, so Go's byte length coincides with the character count of
  `String.data`);
* Go slices are Lean `List`s;
* Go `nil`-able maps and pointers are `Option`s; the Go zero value of a
  string field is `""`;
* `json.Unmarshal` of the raw embedded object is represented by an
  `Except String Ingress` field holding either the decode error message or
  the decoded object;
* the nondeterministic iteration order of a Go `map[string]string` is made
  explicit by representing the map as an association list in one concrete
  iteration order.
-/

namespace Webhook

/-- Go `len(s) == 0` for a string `s`. -/
def goStrEmpty (s : String) : Bool := s.data.isEmpty

/-- Go `strings.HasSuffix(s, ".")`: the last character of `s` is `'.'`. -/
def hasSuffixDot (s : String) : Bool := s.data.reverse.head? == some '.'

/-- Longest dot-free prefix of a character list.  Applied to the reversed
character list of a host name it yields (reversed) the host's last label,
i.e. its top-level-domain part. -/
def lastRun : List Char → List Char
  | [] => []
  | c :: rest => if c = '.' then [] else c :: lastRun rest

/-- Modelled from the spec: the `fqdn` validation rule of the imported
third-party validator library (`gopkg.in/go-playground/validator.v9`,
invoked at `webhook.go` lines 208-209), whose source is not part of this
repository.  Spec §4.2 describes it as "a syntactic check: must contain at
least one embedded label separator and a recognizable
top-level-domain-shaped suffix, must not start/end with a separator". -/
def IsFQDN (s : String) : Prop :=
  s.data ≠ [] ∧
  s.data.head? ≠ some '.' ∧
  s.data.reverse.head? ≠ some '.' ∧
  '.' ∈ s.data ∧
  lastRun s.data.reverse ≠ [] ∧
  ∀ c ∈ lastRun s.data.reverse, c.isAlpha

instance : DecidablePred IsFQDN := fun s => by
  unfold IsFQDN
  infer_instance

/-- Opaque payload standing for a Go `corev1.Container`.  The sidecar code
copies containers wholesale into patch values without ever inspecting
their fields, so a single identifying field suffices. -/
structure Container where
  name : String
deriving DecidableEq

/-- Opaque payload standing for a Go `corev1.Volume` (same remark as for
`Container`). -/
structure Volume where
  name : String
deriving DecidableEq

/-- Go `map[string]string` with its iteration order made explicit. -/
abbrev AnnMap := List (String × String)

/-- The possible shapes taken by the untyped `Value interface{}` field of
`patchOperation` in `webhook.go`. -/
inductive PatchValue where
  | str : String → PatchValue
  | strList : List String → PatchValue
  | container : Container → PatchValue
  | containerList : List Container → PatchValue
  | volume : Volume → PatchValue
  | volumeList : List Volume → PatchValue
  | strMap : AnnMap → PatchValue
deriving DecidableEq

/-- `webhook.go` lines 51-55: one JSON-Patch operation. -/
structure patchOperation where
  op : String
  path : String
  value : PatchValue
deriving DecidableEq

/-- `webhook.go` lines 46-49: the static sidecar configuration. -/
structure Config where
  containers : List Container
  volumes : List Volume
deriving DecidableEq

/-- `webhook.go` lines 33-36: the server state carried by the `mutate` and
`serve` methods (the HTTP server handle is irrelevant to the decision
logic and omitted). -/
structure WebhookServer where
  sidecarConfig : Config
deriving DecidableEq

/-- One TLS block of `extensionsv1beta1.IngressSpec.TLS`. -/
structure IngressTLS where
  hosts : List String
  secretName : String
deriving DecidableEq

structure IngressSpec where
  tls : List IngressTLS
deriving DecidableEq

structure ObjectMeta where
  name : String
deriving DecidableEq

/-- The parts of a decoded `extensionsv1beta1.Ingress` read by the code. -/
structure Ingress where
  metadata : ObjectMeta
  spec : IngressSpec
deriving DecidableEq

/-- Go map lookup `m[key]` on a possibly-`nil` `map[string]string`
(the zero value `""` results when the key is absent or the map is `nil`). -/
def mapGet (m : Option AnnMap) (key : String) : String :=
  match m with
  | none => ""
  | some l => (l.lookup key).getD ""

/-- `webhook.go` lines 90-109: `addContainer`, with the `first` flag made
an explicit argument of the loop. -/
def addContainerLoop (basePath : String) (first : Bool) :
    List Container → List patchOperation
  | [] => []
  | add :: rest =>
    if first then
      ⟨"add", basePath, .containerList [add]⟩ :: addContainerLoop basePath false rest
    else
      ⟨"add", basePath ++ "/-", .container add⟩ :: addContainerLoop basePath false rest

def addContainer (target added : List Container) (basePath : String) :
    List patchOperation :=
  addContainerLoop basePath (target.length == 0) added

/-- `webhook.go` lines 111-130: `addVolume` (same shape as `addContainer`). -/
def addVolumeLoop (basePath : String) (first : Bool) :
    List Volume → List patchOperation
  | [] => []
  | add :: rest =>
    if first then
      ⟨"add", basePath, .volumeList [add]⟩ :: addVolumeLoop basePath false rest
    else
      ⟨"add", basePath ++ "/-", .volume add⟩ :: addVolumeLoop basePath false rest

def addVolume (target added : List Volume) (basePath : String) :
    List patchOperation :=
  addVolumeLoop basePath (target.length == 0) added

/-- `webhook.go` lines 132-152: `updateAnnotation`.  The Go condition
`target == nil || target[key] == ""` is exactly `mapGet target key = ""`.
Note that the add branch overwrites the local `target` variable with a
fresh empty map before continuing the loop. -/
def updateAnnotation (target : Option AnnMap) : AnnMap → List patchOperation
  | [] => []
  | (key, value) :: rest =>
    if mapGet target key = "" then
      ⟨"add", "/metadata/annotations", .strMap [(key, value)]⟩ ::
        updateAnnotation (some []) rest
    else
      ⟨"replace", "/metadata/annotations/" ++ key, .str value⟩ ::
        updateAnnotation target rest

/-- The parts of a `corev1.Pod` read by `createPatch`. -/
structure PodSpec where
  containers : List Container
  volumes : List Volume
deriving DecidableEq

structure Pod where
  annotations : Option AnnMap
  spec : PodSpec
deriving DecidableEq

/-- `webhook.go` lines 155-163: `createPatch` (the `json.Marshal` step is
modelled separately by `renderPatch`; this is the operation list it
serializes). -/
def createPatch (pod : Pod) (sidecarConfig : Config) (annotations : AnnMap) :
    List patchOperation :=
  addContainer pod.spec.containers sidecarConfig.containers ("/spec/containers")
    ++ addVolume pod.spec.volumes sidecarConfig.volumes ("/spec/volumes")
    ++ updateAnnotation pod.annotations annotations

/-- The host literal hard-coded at `webhook.go` lines 193 and 204. -/
def hardcodedHost : String := "cafe.eks.felipe-alfaro.com"

/-- The domain literal hard-coded at `webhook.go` line 218. -/
def hardcodedDomain : String := "eks.felipe-alfaro.com"

/-- The `newHost` computation of `webhook.go` lines 214-218. -/
def qualifyHost (host : String) : String :=
  (if hasSuffixDot host then host else host ++ ".") ++ hardcodedDomain

/-- `fmt.Sprintf("/spec/tls/%d/hosts", tlsIndex)` (`webhook.go` line 192). -/
def tlsHostsPath (tlsIndex : Nat) : String :=
  "/spec/tls/" ++ toString tlsIndex ++ "/hosts"

/-- `fmt.Sprintf("/spec/tls/%d/hosts/%d", tlsIndex, hostIndex)`
(`webhook.go` lines 203 and 221). -/
def tlsHostPath (tlsIndex hostIndex : Nat) : String :=
  tlsHostsPath tlsIndex ++ "/" ++ toString hostIndex

/-- Body of the inner (per-host) loop, `webhook.go` lines 196-227. -/
def hostPatch (tlsIndex hostIndex : Nat) (host : String) : List patchOperation :=
  if goStrEmpty host then
    [⟨"replace", tlsHostPath tlsIndex hostIndex, .str hardcodedHost⟩]
  else if IsFQDN host then []
  else [⟨"replace", tlsHostPath tlsIndex hostIndex, .str (qualifyHost host)⟩]

/-- The inner loop `for hostIndex, host := range tls.Hosts`. -/
def hostListPatch (tlsIndex hostIndex : Nat) : List String → List patchOperation
  | [] => []
  | h :: rest => hostPatch tlsIndex hostIndex h ++ hostListPatch tlsIndex (hostIndex + 1) rest

/-- Body of the outer (per-TLS-block) loop, `webhook.go` lines 184-229. -/
def tlsPatch (tlsIndex : Nat) (tls : IngressTLS) : List patchOperation :=
  if tls.hosts.isEmpty then
    [⟨"replace", tlsHostsPath tlsIndex, .strList [hardcodedHost]⟩]
  else hostListPatch tlsIndex 0 tls.hosts

/-- The outer loop `for tlsIndex, tls := range ingress.Spec.TLS`. -/
def tlsListPatch (tlsIndex : Nat) : List IngressTLS → List patchOperation
  | [] => []
  | tls :: rest => tlsPatch tlsIndex tls ++ tlsListPatch (tlsIndex + 1) rest

/-- The full patch `mutate` accumulates for a decoded ingress
(`webhook.go` lines 182-229). -/
def ingressPatch (ing : Ingress) : List patchOperation :=
  tlsListPatch 0 ing.spec.tls

structure GroupVersionKind where
  group : String
  version : String
  kind : String
deriving DecidableEq

deriving instance DecidableEq for Except

/-- The parts of a `v1beta1.AdmissionRequest` read by the code.  The
`object` field holds the outcome of `json.Unmarshal(req.Object.Raw,
&ingress)`: either the decoded ingress or the error message.  (For
requests the code never unmarshals — any non-ingress kind — the field is
simply never read.) -/
structure AdmissionRequest where
  uid : String
  kind : GroupVersionKind
  object : Except String Ingress
deriving DecidableEq

/-- A `v1beta1.AdmissionResponse`; defaults are the Go zero values.  The
`patch` field holds the operation list whose `json.Marshal` the Go code
stores (absent = Go `nil` slice field). -/
structure AdmissionResponse where
  uid : String := ""
  allowed : Bool := false
  patch : Option (List patchOperation) := none
  resultMessage : Option String := none
deriving DecidableEq

structure AdmissionReview where
  request : Option AdmissionRequest := none
  response : Option AdmissionResponse := none
deriving DecidableEq

/-- `webhook.go` lines 166-251: the `mutate` method, given a non-`nil`
request (`serve` passes `ar` whose `Request` the method dereferences).
Note the receiver `whsvr` is never read by the method body. -/
def mutateReq (whsvr : WebhookServer) (req : AdmissionRequest) : AdmissionResponse :=
  if req.kind.version = "v1beta1" ∧ req.kind.kind = "Ingress" then
    match req.object with
    | .error msg => { resultMessage := some msg }
    | .ok ingress => { allowed := true, patch := some (ingressPatch ingress) }
  else
    { allowed := true }

/-- Outcome of one `serve` call, `webhook.go` lines 254-311.  `httpError`
is a response written through `http.Error`; `reply` is a normally-encoded
admission review written with status 200; `crash` marks the nil-pointer
dereference `mutate` performs when a successfully decoded review carries
no request. -/
inductive ServeOutcome where
  | httpError (status : Nat) (msg : String)
  | reply (review : AdmissionReview)
  | crash
deriving DecidableEq

/-- `webhook.go` lines 254-311: the `serve` handler.  `body` is what
`ioutil.ReadAll` yielded (empty on a read error), `contentType` the
`Content-Type` header, and `decodeErr`/`ar` the error and the
(possibly partially) populated review produced by
`deserializer.Decode(body, nil, &ar)`. -/
def serve (whsvr : WebhookServer) (body contentType : String)
    (decodeErr : Option String) (ar : AdmissionReview) : ServeOutcome :=
  if goStrEmpty body then
    .httpError 400 "empty body"
  else if contentType ≠ "application/json" then
    .httpError 415 "invalid Content-Type, expect `application/json`"
  else
    let admissionResponse : Option AdmissionResponse :=
      match decodeErr with
      | some e => some { resultMessage := some e }
      | none =>
        match ar.request with
        | none => none
        | some req => some (mutateReq whsvr req)
    match admissionResponse with
    | none => .crash
    | some resp =>
      let withUid : AdmissionResponse :=
        match ar.request with
        | some req => { resp with uid := req.uid }
        | none => resp
      .reply { request := none, response := some withUid }

/-- Abstract stand-in for `json.Marshal` on a string (escaping elided: no
value handled here contains characters needing escapes). -/
def renderString (s : String) : String := "\"" ++ s ++ "\""

def renderStrList (l : List String) : String :=
  "[" ++ String.intercalate ("," ) (l.map renderString) ++ "]"

def renderAnnMap (l : AnnMap) : String :=
  "\x7b" ++
    String.intercalate ("," )
      (l.map fun kv => renderString kv.1 ++ ":" ++ renderString kv.2) ++
    "\x7d"

def renderValue : PatchValue → String
  | .str s => renderString s
  | .strList l => renderStrList l
  | .container c => "\x7b\"name\":" ++ renderString c.name ++ "\x7d"
  | .containerList l =>
    "[" ++ String.intercalate ("," )
      (l.map fun c => "\x7b\"name\":" ++ renderString c.name ++ "\x7d") ++ "]"
  | .volume v => "\x7b\"name\":" ++ renderString v.name ++ "\x7d"
  | .volumeList l =>
    "[" ++ String.intercalate ("," )
      (l.map fun v => "\x7b\"name\":" ++ renderString v.name ++ "\x7d") ++ "]"
  | .strMap l => renderAnnMap l

def renderOp (p : patchOperation) : String :=
  "\x7b\"op\":" ++ renderString p.op ++ ",\"path\":" ++ renderString p.path ++
    ",\"value\":" ++ renderValue p.value ++ "\x7d"

/-- Abstract stand-in for `json.Marshal(patch)` (`webhook.go` line 231):
the serialized bytes of a patch operation list. -/
def renderPatch (l : List patchOperation) : String :=
  "[" ++ String.intercalate ("," ) (l.map renderOp) ++ "]"

/-! ### Supporting lemmas -/

theorem data_append (s t : String) : (s ++ t).data = s.data ++ t.data := rfl

/-- The character-list form of `IsFQDN` (it only depends on `s.data`). -/
def FQDNChars (l : List Char) : Prop :=
  l ≠ [] ∧
  l.head? ≠ some '.' ∧
  l.reverse.head? ≠ some '.' ∧
  '.' ∈ l ∧
  lastRun l.reverse ≠ [] ∧
  ∀ c ∈ lastRun l.reverse, c.isAlpha

theorem isFQDN_iff_chars (s : String) : IsFQDN s ↔ FQDNChars s.data := Iff.rfl

theorem lastRun_moc (l : List Char) :
    lastRun ('m' :: 'o' :: 'c' :: '.' :: l) = ['m', 'o', 'c'] := by
  simp [lastRun]

/-- Appending `"."`-separated `eks.felipe-alfaro.com` to any character list
that starts with a non-dot character yields an FQDN-shaped list. -/
theorem fqdnChars_append_domain (c : Char) (t : List Char) (hc : c ≠ '.') :
    FQDNChars ((c :: t) ++ hardcodedDomain.data) := by
  have hrev : ((c :: t) ++ hardcodedDomain.data).reverse
      = 'm' :: 'o' :: 'c' :: '.' ::
        (("orafla-epilef.ske" : String).data ++ (c :: t).reverse) := by
    rw [List.reverse_append]
    rfl
  refine ⟨by simp, by simp [hc], ?_, ?_, ?_, ?_⟩
  · rw [hrev]; simp
  · exact List.mem_append.mpr (Or.inr (by decide))
  · rw [hrev, lastRun_moc]; simp
  · rw [hrev, lastRun_moc]; decide

theorem isFQDN_qualifyHost (h : String) (c : Char) (t : List Char)
    (hct : h.data = c :: t) (hc : c ≠ '.') : IsFQDN (qualifyHost h) := by
  rw [isFQDN_iff_chars]
  unfold qualifyHost
  by_cases hsfx : hasSuffixDot h
  · rw [if_pos hsfx, data_append, hct]
    exact fqdnChars_append_domain c t hc
  · rw [if_neg hsfx, data_append, data_append, hct]
    have := fqdnChars_append_domain c (t ++ ('.' : Char) :: []) hc
    simpa using this

theorem goStrEmpty_false_of_ne_nil (h : String) (hne : h.data ≠ []) :
    goStrEmpty h = false := by
  unfold goStrEmpty
  cases hd : h.data with
  | nil => exact absurd hd hne
  | cons c t => rfl

theorem hostPatch_of_fqdn (ti hi : Nat) (h : String) (hf : IsFQDN h) :
    hostPatch ti hi h = [] := by
  have hge : goStrEmpty h = false := goStrEmpty_false_of_ne_nil h hf.1
  simp [hostPatch, hge, hf]

theorem hostListPatch_nil (ti : Nat) (hosts : List String)
    (hall : ∀ h ∈ hosts, IsFQDN h) :
    ∀ hi, hostListPatch ti hi hosts = [] := by
  induction hosts with
  | nil => intro hi; rfl
  | cons h rest ih =>
    intro hi
    have h1 : IsFQDN h := hall h (List.mem_cons_self h rest)
    have h2 : ∀ x ∈ rest, IsFQDN x := fun x hx => hall x (List.mem_cons_of_mem h hx)
    simp [hostListPatch, hostPatch_of_fqdn ti hi h h1, ih h2 (hi + 1)]

theorem tlsPatch_nil (ti : Nat) (tls : IngressTLS)
    (hne : tls.hosts ≠ []) (hall : ∀ h ∈ tls.hosts, IsFQDN h) :
    tlsPatch ti tls = [] := by
  have : tls.hosts.isEmpty = false := by
    cases hd : tls.hosts with
    | nil => exact absurd hd hne
    | cons h rest => rfl
  simp [tlsPatch, this, hostListPatch_nil ti tls.hosts hall 0]

theorem tlsListPatch_nil (blocks : List IngressTLS)
    (hall : ∀ b ∈ blocks, b.hosts ≠ [] ∧ ∀ h ∈ b.hosts, IsFQDN h) :
    ∀ ti, tlsListPatch ti blocks = [] := by
  induction blocks with
  | nil => intro ti; rfl
  | cons b rest ih =>
    intro ti
    have h1 := hall b (List.mem_cons_self b rest)
    have h2 : ∀ x ∈ rest, x.hosts ≠ [] ∧ ∀ h ∈ x.hosts, IsFQDN h :=
      fun x hx => hall x (List.mem_cons_of_mem b hx)
    simp [tlsListPatch, tlsPatch_nil ti b h1.1 h1.2, ih h2 (ti + 1)]

theorem addContainerLoop_false (basePath : String) (l : List Container) :
    addContainerLoop basePath false l
      = l.map (fun c => ⟨"add", basePath ++ "/-", .container c⟩) := by
  induction l with
  | nil => rfl
  | cons c rest ih => simp [addContainerLoop, ih]

theorem addContainerLoop_length (basePath : String) (first : Bool) (l : List Container) :
    (addContainerLoop basePath first l).length = l.length := by
  induction l generalizing first with
  | nil => rfl
  | cons c rest ih =>
    cases first <;> simp [addContainerLoop, ih]

theorem addContainerLoop_op (basePath : String) (first : Bool) (l : List Container) :
    ∀ p ∈ addContainerLoop basePath first l, p.op = "add" := by
  induction l generalizing first with
  | nil => intro p hp; cases hp
  | cons c rest ih =>
    intro p hp
    cases first with
    | true =>
      simp only [addContainerLoop, if_true] at hp
      rcases List.mem_cons.mp hp with h | h
      · rw [h]
      · exact ih false p h
    | false =>
      simp only [addContainerLoop, Bool.false_eq_true, if_false] at hp
      rcases List.mem_cons.mp hp with h | h
      · rw [h]
      · exact ih false p h

theorem updateAnnotation_empty_target (l : AnnMap) :
    updateAnnotation (some []) l
      = l.map (fun kv => ⟨"add", "/metadata/annotations", .strMap [(kv.1, kv.2)]⟩) := by
  induction l with
  | nil => rfl
  | cons kv rest ih =>
    obtain ⟨k, v⟩ := kv
    have : mapGet (some []) k = "" := rfl
    simp [ updateAnnotation, this, ih]

/-! ### Claim theorems -/

/-- C1, code evaluated at the failing input: for an ingress named `tea`
whose single TLS block has an empty host list, `mutate` emits exactly one
`replace` at `/spec/tls/0/hosts`, but its value is the hard-coded
single-element list `["cafe.eks.felipe-alfaro.com"]`, not the
`{ingressName}.{suffix}` list (`["tea.example.com"]` for DNS suffix
`example.com`) the claim requires. -/
theorem c1_hardcoded_host_eval :
    mutateReq ⟨⟨[], []⟩⟩ ⟨"uid-1", ⟨"extensions", "v1beta1", "Ingress"⟩,
        .ok ⟨⟨"tea"⟩, ⟨[⟨[], "tea-secret"⟩]⟩⟩⟩
      = { allowed := true,
          patch := some [⟨"replace", "/spec/tls/0/hosts",
            .strList ["cafe.eks.felipe-alfaro.com"]⟩] } ∧
    (["cafe.eks.felipe-alfaro.com"] : List String) ≠ ["tea" ++ "." ++ "example.com"] := by
  decide

/-- C2, code evaluated at the failing input: for the ingress named `cafe`
with DNS suffix `example.com` and one TLS block with a single empty-string
host, `mutate` emits one `replace` at `/spec/tls/0/hosts/0`, but its value
is the hard-coded `"cafe.eks.felipe-alfaro.com"`, not the
`"cafe.example.com"` the claim requires. -/
theorem c2_hardcoded_host_eval :
    mutateReq ⟨⟨[], []⟩⟩ ⟨"uid-2", ⟨"extensions", "v1beta1", "Ingress"⟩,
        .ok ⟨⟨"cafe"⟩, ⟨[⟨[""], "cafe-secret"⟩]⟩⟩⟩
      = { allowed := true,
          patch := some [⟨"replace", "/spec/tls/0/hosts/0",
            .str "cafe.eks.felipe-alfaro.com"⟩] } ∧
    ("cafe.eks.felipe-alfaro.com" : String) ≠ "cafe" ++ "." ++ "example.com" := by
  decide

/-- C4 counterexample: with target annotations `{b: "x"}` and configured
pairs `[(a, "1"), (b, "2")]` (in that iteration order), the code emits two
`add` operations and no `replace` at all — in particular no `replace` for
key `b` even though the original target maps `b` to the non-empty `"x"`,
contradicting the claim's "if the target maps key to a non-empty value,
it emits a replace". -/
theorem c4_counterexample :
    updateAnnotation (some [("b", "x")]) [("a", "1"), ("b", "2")]
      = [⟨"add", "/metadata/annotations", .strMap [("a", "1")]⟩,
         ⟨"add", "/metadata/annotations", .strMap [("b", "2")]⟩] ∧
    mapGet (some [("b", "x")]) "b" = "x" ∧
    ∀ p ∈ updateAnnotation (some [("b", "x")]) [("a", "1"), ("b", "2")],
      p.op ≠ "replace" := by
  decide

/-- C4 (amended): `updateAnnotation` emits a `replace` at
`/metadata/annotations/{key}` with the configured value exactly for the
longest prefix of the iteration order whose keys all have a non-empty
value in the target; from the first key whose target value is absent or
empty onward (the add branch resets the local target to an empty map),
every pair — including pairs whose key originally had a non-empty value —
is emitted as an `add` at `/metadata/annotations` with the single-entry
map `{key: value}`.  No key gets both operations. -/
theorem c4_updateAnnotation_split (target : Option AnnMap) (added : AnnMap) :
    updateAnnotation target added
      = (added.takeWhile (fun kv => mapGet target kv.1 != "")).map
          (fun kv => ⟨"replace", "/metadata/annotations/" ++ kv.1, .str kv.2⟩)
        ++ (added.dropWhile (fun kv => mapGet target kv.1 != "")).map
          (fun kv => ⟨"add", "/metadata/annotations", .strMap [(kv.1, kv.2)]⟩) := by
  induction added with
  | nil => rfl
  | cons kv rest ih =>
    obtain ⟨k, v⟩ := kv
    by_cases h : mapGet target k = ""
    · simp [ updateAnnotation, h, List.takeWhile_cons, List.dropWhile_cons,
        updateAnnotation_empty_target]
    · simp [ updateAnnotation, h, List.takeWhile_cons, List.dropWhile_cons, ih]

/-- C5: on an empty target container list, injecting configured containers
`c :: rest` yields exactly one operation per container, all `add`s, the
first at the base path `/spec/containers` carrying the singleton list
`[c]` and each subsequent one at the append path (base path followed by
the `-` end-of-array marker) carrying that container; on a non-empty
target list, every configured container is an `add` at the append path. -/
theorem c5_addContainer_shape (target added : List Container) :
    (target = [] → ∀ c rest, added = c :: rest →
      addContainer target added ("/spec/containers")
        = ⟨"add", "/spec/containers", .containerList [c]⟩ ::
            rest.map (fun x => ⟨"add", "/spec/containers/-", .container x⟩)) ∧
    (target ≠ [] →
      addContainer target added ("/spec/containers")
        = added.map (fun x => ⟨"add", "/spec/containers/-", .container x⟩)) ∧
    (addContainer target added ("/spec/containers")).length = added.length ∧
    (∀ p ∈ addContainer target added ("/spec/containers"), p.op = "add") := by
  refine ⟨?_, ?_, ?_, ?_⟩
  · intro ht c rest ha
    subst ht ha
    show addContainerLoop _ true (c :: rest) = _
    rw [addContainerLoop]
    simp [addContainerLoop_false]
  · intro ht
    have : (target.length == 0) = false := by
      cases target with
      | nil => exact absurd rfl ht
      | cons x xs => rfl
    unfold addContainer
    rw [this, addContainerLoop_false]
    rfl
  · exact addContainerLoop_length _ _ _
  · exact addContainerLoop_op _ _ _

/-- C5 witness: both cases of `c5_addContainer_shape` instantiated at
concrete containers. -/
theorem c5_addContainer_shape_witness :
    addContainer [] [⟨"A"⟩, ⟨"B"⟩] ("/spec/containers")
      = [⟨"add", "/spec/containers", .containerList [⟨"A"⟩]⟩,
         ⟨"add", "/spec/containers/-", .container ⟨"B"⟩⟩] ∧
    addContainer [⟨"X"⟩] [⟨"A"⟩, ⟨"B"⟩] ("/spec/containers")
      = [⟨"add", "/spec/containers/-", .container ⟨"A"⟩⟩,
         ⟨"add", "/spec/containers/-", .container ⟨"B"⟩⟩] :=
  ⟨(c5_addContainer_shape [] [⟨"A"⟩, ⟨"B"⟩]).1 rfl ⟨"A"⟩ [⟨"B"⟩] rfl,
   (c5_addContainer_shape [⟨"X"⟩] [⟨"A"⟩, ⟨"B"⟩]).2.1 (by decide)⟩

/-- C6: for every admission request whose declared kind/version is not
`Ingress`/`v1beta1`, `mutate` returns the response with `allowed := true`,
no patch and no status message (and, as the definition of `mutateReq`
shows, without invoking any of the sidecar-injection functions
`createPatch`, `addContainer`, `addVolume`, ` updateAnnotation`, which are
dead code in `webhook.go`). -/
theorem c6_non_ingress_allowed (whsvr : WebhookServer) (req : AdmissionRequest)
    (h : ¬ (req.kind.version = "v1beta1" ∧ req.kind.kind = "Ingress")) :
    mutateReq whsvr req = { allowed := true } := by
  unfold mutateReq
  rw [if_neg h]

/-- C6 witness: a pod request (`v1`/`Pod`) is answered with the bare
allowed response. -/
theorem c6_non_ingress_allowed_witness :
    mutateReq ⟨⟨[], []⟩⟩ ⟨"uid-6", ⟨"", "v1", "Pod"⟩, .error "not an ingress"⟩
      = { allowed := true } :=
  c6_non_ingress_allowed ⟨⟨[], []⟩⟩ _ (by decide)

/-- C10: the admission response — and hence the serialized patch — depends
only on the request: two invocations of `mutate` with arbitrary (even
different) server states on the same request produce identical responses
and byte-identical rendered patches.  The embedding is a pure function,
mirroring the Go code's freedom from randomness and time dependence. -/
theorem c10_deterministic (w1 w2 : WebhookServer) (req : AdmissionRequest) :
    mutateReq w1 req = mutateReq w2 req ∧
    (mutateReq w1 req).patch.map renderPatch
      = (mutateReq w2 req).patch.map renderPatch :=
  ⟨rfl, rfl⟩

/-- C3 counterexample: for host `".foo"` with configured DNS suffix
`example.com`, the emitted replacement value is
`".foo.eks.felipe-alfaro.com"` — the hard-coded domain, not the configured
suffix (the claim's formula gives `".foo.example.com"`) — and re-running
the normalizer on that replacement value emits a further operation,
refuting the idempotence half of the claim as well. -/
theorem c3_counterexample :
    hostPatch 0 0 ".foo"
      = [⟨"replace", "/spec/tls/0/hosts/0", .str ".foo.eks.felipe-alfaro.com"⟩] ∧
    (".foo.eks.felipe-alfaro.com" : String) ≠ ".foo" ++ "." ++ "example.com" ∧
    hostPatch 0 0 ".foo.eks.felipe-alfaro.com" ≠ [] := by
  decide

/-- C3 (amended): every non-empty host that fails FQDN validation gets one
`replace` at its indexed path whose value is the host, with a `"."`
appended only when the host does not already end in `"."`, followed by the
hard-coded domain `eks.felipe-alfaro.com` (the DNS suffix configured by
the `-dnsSuffix` flag is ignored); and re-running the normalizer on that
replacement value emits no further operation for the host, provided the
host does not begin with the separator `"."`. -/
theorem c3_nonfqdn_qualify (ti hi : Nat) (h : String)
    (hne : h.data ≠ []) (hnf : ¬ IsFQDN h) :
    hostPatch ti hi h
      = [⟨"replace", tlsHostPath ti hi,
          .str ((if hasSuffixDot h then h else h ++ ".") ++ "eks.felipe-alfaro.com")⟩] ∧
    (h.data.head? ≠ some '.' → hostPatch ti hi (qualifyHost h) = []) := by
  have hge : goStrEmpty h = false := goStrEmpty_false_of_ne_nil h hne
  constructor
  · simp [hostPatch, hge, hnf, qualifyHost, hardcodedDomain]
  · intro hdot
    obtain ⟨c, t, hct⟩ : ∃ c t, h.data = c :: t := by
      cases hd : h.data with
      | nil => exact absurd hd hne
      | cons c t => exact ⟨c, t, rfl⟩
    have hc : c ≠ '.' := by
      intro he
      apply hdot
      rw [hct, he]
      rfl
    exact hostPatch_of_fqdn ti hi _ (isFQDN_qualifyHost h c t hct hc)

/-- C3 witness: the amended claim instantiated at host `"foo"`
(non-empty, non-FQDN, not starting with a dot). -/
theorem c3_nonfqdn_qualify_witness :
    hostPatch 0 0 "foo"
      = [⟨"replace", tlsHostPath 0 0,
          .str ((if hasSuffixDot "foo" then "foo" else "foo" ++ ".")
            ++ "eks.felipe-alfaro.com")⟩] ∧
    hostPatch 0 0 (qualifyHost "foo") = [] := by
  have h := c3_nonfqdn_qualify 0 0 "foo" (by decide) (by decide)
  exact ⟨h.1, h.2 (by decide)⟩

/-- C7: for every ingress request whose decoded object needs no change —
each TLS block has a non-empty host list and every host validates as an
FQDN — the response is allowed with an empty patch (no operations). -/
theorem c7_no_change_empty_patch (whsvr : WebhookServer) (req : AdmissionRequest)
    (ing : Ingress)
    (hv : req.kind.version = "v1beta1") (hk : req.kind.kind = "Ingress")
    (hobj : req.object = .ok ing)
    (hall : ∀ tls ∈ ing.spec.tls, tls.hosts ≠ [] ∧ ∀ h ∈ tls.hosts, IsFQDN h) :
    mutateReq whsvr req = { allowed := true, patch := some [] } := by
  unfold mutateReq
  rw [if_pos ⟨hv, hk⟩, hobj]
  have hnil : ingressPatch ing = [] := tlsListPatch_nil ing.spec.tls hall 0
  simp [hnil]

/-- C7 witness: an ingress whose single TLS block lists two valid FQDNs is
answered with an empty patch. -/
theorem c7_no_change_empty_patch_witness :
    mutateReq ⟨⟨[], []⟩⟩ ⟨"uid-7", ⟨"extensions", "v1beta1", "Ingress"⟩,
        .ok ⟨⟨"cafe"⟩, ⟨[⟨["cafe.example.com", "tea.example.com"], "sec"⟩]⟩⟩⟩
      = { allowed := true, patch := some [] } :=
  c7_no_change_empty_patch ⟨⟨[], []⟩⟩ _
    ⟨⟨"cafe"⟩, ⟨[⟨["cafe.example.com", "tea.example.com"], "sec"⟩]⟩⟩
    rfl rfl rfl (by decide)

/-- C8: `serve` answers HTTP 400 exactly when the body is empty, HTTP 415
when the body is non-empty but the Content-Type header is not
`application/json`, and a decode failure past those transport checks is
not an HTTP error: it yields a normally-encoded admission review whose
status message carries the decode error. -/
theorem c8_transport_errors (whsvr : WebhookServer) (body ct : String)
    (derr : Option String) (ar : AdmissionReview) :
    (goStrEmpty body = true →
      serve whsvr body ct derr ar = .httpError 400 "empty body") ∧
    (goStrEmpty body = false → ct ≠ "application/json" →
      serve whsvr body ct derr ar
        = .httpError 415 "invalid Content-Type, expect `application/json`") ∧
    (goStrEmpty body = false → ct = "application/json" → ∀ e, derr = some e →
      ∃ resp, serve whsvr body ct derr ar
          = .reply { request := none, response := some resp } ∧
        resp.resultMessage = some e) := by
  refine ⟨?_, ?_, ?_⟩
  · intro hb
    simp [serve, hb]
  · intro hb hct
    simp [serve, hb, hct]
  · intro hb hct e he
    cases har : ar.request with
    | none =>
      exact ⟨{ resultMessage := some e },
        by simp [serve, hb, hct, he, har], rfl⟩
    | some req =>
      exact ⟨{ uid := req.uid, resultMessage := some e },
        by simp [serve, hb, hct, he, har], rfl⟩

/-- C8 witness: the three branches exercised at concrete requests — empty
body, wrong content type, and an undecodable body whose error message
`"boom"` is carried in the reply. -/
theorem c8_transport_errors_witness :
    serve ⟨⟨[], []⟩⟩ "" "application/json" none ⟨none, none⟩
      = .httpError 400 "empty body" ∧
    serve ⟨⟨[], []⟩⟩ "x" "text/plain" none ⟨none, none⟩
      = .httpError 415 "invalid Content-Type, expect `application/json`" ∧
    ∃ resp, serve ⟨⟨[], []⟩⟩ "x" "application/json" (some "boom") ⟨none, none⟩
        = .reply { request := none, response := some resp } ∧
      resp.resultMessage = some "boom" :=
  ⟨(c8_transport_errors ⟨⟨[], []⟩⟩ "" "application/json" none ⟨none, none⟩).1 rfl,
   (c8_transport_errors ⟨⟨[], []⟩⟩ "x" "text/plain" none ⟨none, none⟩).2.1 rfl (by decide),
   (c8_transport_errors ⟨⟨[], []⟩⟩ "x" "application/json" (some "boom")
     ⟨none, none⟩).2.2 rfl rfl "boom" rfl⟩

/-- C9: past the transport checks, whenever an admission request was
recovered (the decoded review's request field is present) the written
response echoes that request's uid unchanged — including when the
embedded object failed to decode, since the request's `object` field is
arbitrary here — and when no request was recovered (entire-envelope decode
failure) the response's uid is left at its empty zero value. -/
theorem c9_uid_echo (whsvr : WebhookServer) (body ct : String)
    (derr : Option String) (ar : AdmissionReview)
    (hb : goStrEmpty body = false) (hct : ct = "application/json") :
    (∀ req, ar.request = some req →
      ∃ resp, serve whsvr body ct derr ar
          = .reply { request := none, response := some resp } ∧
        resp.uid = req.uid) ∧
    (ar.request = none → ∀ e, derr = some e →
      ∃ resp, serve whsvr body ct derr ar
          = .reply { request := none, response := some resp } ∧
        resp.uid = "") := by
  constructor
  · intro req har
    cases derr with
    | some e =>
      exact ⟨{ uid := req.uid, resultMessage := some e },
        by simp [serve, hb, hct, har], rfl⟩
    | none =>
      exact ⟨{ mutateReq whsvr req with uid := req.uid },
        by simp [serve, hb, hct, har], rfl⟩
  · intro har e he
    exact ⟨{ resultMessage := some e },
      by simp [serve, hb, hct, har, he], rfl⟩

/-- C9 witness: a recovered request with uid `"uid-9"` — whose embedded
object even failed to decode — is echoed `"uid-9"`; an unrecovered request
under a decode failure leaves the uid empty. -/
theorem c9_uid_echo_witness :
    (∃ resp, serve ⟨⟨[], []⟩⟩ "x" "application/json" none
        ⟨some ⟨"uid-9", ⟨"extensions", "v1beta1", "Ingress"⟩, .error "bad object"⟩, none⟩
        = .reply { request := none, response := some resp } ∧
      resp.uid = "uid-9") ∧
    (∃ resp, serve ⟨⟨[], []⟩⟩ "x" "application/json" (some "bad envelope") ⟨none, none⟩
        = .reply { request := none, response := some resp } ∧
      resp.uid = "") :=
  ⟨(c9_uid_echo ⟨⟨[], []⟩⟩ "x" "application/json" none
      ⟨some ⟨"uid-9", ⟨"extensions", "v1beta1", "Ingress"⟩, .error "bad object"⟩, none⟩
      rfl rfl).1 _ rfl,
   (c9_uid_echo ⟨⟨[], []⟩⟩ "x" "application/json" (some "bad envelope") ⟨none, none⟩
      rfl rfl).2 rfl "bad envelope" rfl⟩

end Webhook
